import Mathlib

/-!
A shallow embedding of the identity/authorization engine (`src/core/src/model/hosts.ts`:
the `Hosts` and `Users` classes). SQL tables become Lean lists of row structures,
a transaction's table-lock set becomes an explicit field, external crypto primitives
(argon2, sha1, sha512) become function parameters, and each method becomes a pure
function returning `Except Err` where the original can throw.
-/

/-- The error classes imported from `./errors` in `hosts.ts`:
`NoSuchEntryError`, `AuthenticationError`, `NotActivatedError`, `ExpiredTokenError`,
`AuthorizationError`; plus the failure of `tr.ensureHasAccessExclusiveLock` (the
transaction does not hold the required lock) and the local error thrown by
`userToPosixAccount` on an unprojectable account. -/
inductive Err where
  | noSuchEntry
  | authenticationError
  | notActivated
  | expiredToken
  | authorizationError
  | lockNotHeld
  | cannotConvert
deriving Repr, DecidableEq

/-- `export type Language = 'ko' | 'en'` (primed: `Language` is taken by Mathlib). -/
inductive Language' where
  | ko
  | en
deriving Repr, DecidableEq

/-- The two legacy digest tags recognised by `Users.authenticate`:
`'mssql-sha1'` and `'mssql-sha512'` (the PHC `id` field). -/
inductive LegacyTag where
  | mssqlSha1
  | mssqlSha512
deriving Repr, DecidableEq

/-- A stored `password_digest`, decoded as by `phc.deserialize`: either one of the
two legacy formats (tag, salt, hash bytes) or a current-format (argon2) digest,
kept as its serialized string. Bytes are modelled as `List Nat`. -/
inductive Digest where
  | legacy (tag : LegacyTag) (salt : List Nat) (hash : List Nat)
  | current (phcString : String)
deriving Repr, DecidableEq

/-- The external cryptographic collaborators of `Users`: `crypto.createHash('sha1')`,
`crypto.createHash('sha512')`, `argon2.hash` and `argon2.verify`. They are opaque
primitives to the engine, so the embedding takes them as parameters. Passwords are
modelled at the byte level (`List Nat`). -/
structure Crypto where
  sha1 : List Nat → List Nat
  sha512 : List Nat → List Nat
  argon2Hash : List Nat → String
  argon2Verify : String → List Nat → Bool

/-- A row of the `users` table, with the columns `hosts.ts` reads or writes.
`username` and `shell` are nullable (`userToPosixAccount` checks both for null);
`last_login_at` is a nullable timestamp, time being modelled as `Nat`. -/
structure UserRow where
  idx : Nat
  username : Option String
  passwordDigest : Digest
  name : String
  uid : Nat
  shell : Option String
  preferredLanguage : Language'
  activated : Bool
  lastLoginAt : Option Nat
deriving Repr, DecidableEq

/-- A row of `password_change_tokens` (`user_idx`, `token`, `resend_count`,
`expires`). -/
structure TokenRow where
  userIdx : Nat
  token : String
  resendCount : Nat
  expires : Nat
deriving Repr, DecidableEq

/-- A row of `email_addresses` as used by `getUserIdxByEmailAddress`
(`owner_idx`, `address_local`, `address_domain`). -/
structure EmailRow where
  ownerIdx : Nat
  addressLocal : String
  addressDomain : String
deriving Repr, DecidableEq

/-- `interface Host` of `hosts.ts`. -/
structure Host where
  idx : Nat
  name : String
  host : String
  hostGroupIdx : Option Nat
deriving Repr, DecidableEq

/-- `interface HostGroup` of `hosts.ts`. -/
structure HostGroup where
  idx : Nat
  name : String
  requiredPermissionIdx : Option Nat
deriving Repr, DecidableEq

/-- Modelled from the spec: the transaction capability (`./transaction`, not under
`src/`). Per section 6 it offers `query` and an exclusive-lock assertion usable only
inside a transaction; the embedding keeps just the set of tables on which the
transaction holds an access-exclusive lock. -/
structure Transaction where
  exclusiveLocks : List String
deriving Repr, DecidableEq

/-- Modelled from the spec: `tr.ensureHasAccessExclusiveLock(table)` asserts that
the transaction already holds the exclusive lock on `table` (section 4.2 and the
design notes treat the lock as a precondition the callee asserts, failing
otherwise), so it succeeds exactly when the lock is held. -/
def Transaction.ensureHasAccessExclusiveLock (tr : Transaction) (table : String) :
    Except Err Unit :=
  if tr.exclusiveLocks.contains table then .ok () else .error .lockNotHeld

namespace Users

/-- The pure gap scan of `Users.generateUid`:
`SELECT b.uid + 1 AS uid FROM users AS a RIGHT OUTER JOIN users AS b
 ON a.uid = b.uid + 1 WHERE a.uid IS NULL AND b.uid + 1 >= $1
 ORDER BY b.uid LIMIT 1`, falling back to `minUid` when no row qualifies.
A row `b` qualifies when no user has uid `b.uid + 1` (the right outer join
produced `a.uid IS NULL`) and `b.uid + 1 >= minUid`; the smallest such `b.uid`
is taken and `b.uid + 1` returned. -/
def uidScan (uids : List Nat) (minUid : Nat) : Nat :=
  match (uids.filter (fun b => decide (minUid ≤ b + 1) && !(uids.contains (b + 1)))).min? with
  | some b => b + 1
  | none => minUid

/-- `Users.generateUid(tr)`: asserts the exclusive lock on `users` via
`tr.ensureHasAccessExclusiveLock('users')` before running the gap-scan query.
`uids` is the multiset of `uid` values currently in the `users` table and
`minUid` is `config.posix.minUid`. -/
def generateUid (tr : Transaction) (uids : List Nat) (minUid : Nat) : Except Err Nat := do
  let _ ← tr.ensureHasAccessExclusiveLock "users"
  pure (uidScan uids minUid)

end Users

/-- Modelled from the spec: `posixAccountObjectClass` is imported from
`../ldap/types` (not under `src/`); section 4.4 calls it "a fixed object-class
set for POSIX accounts". Its exact strings matter to no claim; a fixed constant
stands in. -/
def posixAccountObjectClass : List String :=
  ["top", "account", "posixAccount", "shadowAccount"]

/-- An `ldap.SearchEntry<PosixAccount>` as built by `Users.userToPosixAccount`:
the distinguished name plus the attribute record. -/
structure PosixAccount where
  dn : String
  uid : String
  cn : String
  gecos : String
  homeDirectory : String
  loginShell : String
  objectClass : List String
  uidNumber : Nat
  gidNumber : Nat
deriving Repr, DecidableEq

/-- The configuration fields `Users` reads: `config.ldap.usersOU`,
`config.ldap.baseDN`, `config.posix.homeDirectoryPrefix` (here `homeDir`),
`config.posix.userGroupGid` and `config.posix.minUid`. -/
structure Config where
  usersOU : String
  baseDN : String
  homeDir : String
  userGroupGid : Nat
  minUid : Nat
deriving Repr, DecidableEq

/-- The constructor-set field
`this.usersDN = 'ou=' + config.ldap.usersOU + ',' + config.ldap.baseDN`. -/
def usersDN (cfg : Config) : String :=
  "ou=" ++ cfg.usersOU ++ "," ++ cfg.baseDN

/-- Postgres `LOWER(...)` as used by `getUserIdxByEmailAddress`'s query:
character-wise lower-casing (written over the character list so that it
evaluates). -/
def lowerString (s : String) : String :=
  ⟨s.data.map Char.toLower⟩

/-- The mutable state the `Users` methods touch: the `users` and
`password_change_tokens` tables, and the instance field `posixAccountsCache`
(`null` = unpopulated). -/
structure DBState where
  users : List UserRow
  tokens : List TokenRow
  cache : Option (List PosixAccount)
deriving Repr, DecidableEq

namespace Users

/-- `Users.userToPosixAccount`: throws `Error('Cannot convert to posixAccount')`
when `username` or `shell` is null, otherwise builds the directory entry. -/
def userToPosixAccount (cfg : Config) (user : UserRow) : Except Err PosixAccount :=
  match user.username, user.shell with
  | some uname, some sh =>
      .ok { dn := "cn=" ++ uname ++ "," ++ usersDN cfg
            uid := uname
            cn := uname
            gecos := user.name
            homeDirectory := cfg.homeDir ++ "/" ++ uname
            loginShell := sh
            objectClass := posixAccountObjectClass
            uidNumber := user.uid
            gidNumber := cfg.userGroupGid }
  | _, _ => .error .cannotConvert

/-- `Users.usersToPosixAccounts`: per-account try/catch — a failing conversion
is swallowed (`// do nothing`) and that account omitted from the result. -/
def usersToPosixAccounts (cfg : Config) : List UserRow → List PosixAccount
  | [] => []
  | u :: rest =>
      match userToPosixAccount cfg u with
      | .ok e => e :: usersToPosixAccounts cfg rest
      | .error _ => usersToPosixAccounts cfg rest

/-- `Users.getAllAsPosixAccounts`: rebuilds the cache from the `users` table
when it is unpopulated, otherwise serves the cached value. -/
def getAllAsPosixAccounts (cfg : Config) (st : DBState) :
    List PosixAccount × DBState :=
  match st.cache with
  | some c => (c, st)
  | none =>
      let c := usersToPosixAccounts cfg st.users
      (c, { st with cache := some c })

/-- `Users.create`: hashes the password with argon2, allocates a uid via
`generateUid` (which asserts the lock), inserts the row, clears
`posixAccountsCache` and returns the new row's idx. `newIdx` stands for the idx
the database sequence produces (`RETURNING idx`); `activated` and
`last_login_at` take their schema defaults (modelled from the spec: the schema
is not under `src/`; accounts start deactivated, with no recorded login). -/
def create (crypto : Crypto) (tr : Transaction) (cfg : Config) (st : DBState)
    (newIdx : Nat) (username : String) (password : List Nat) (name : String)
    (shell : String) (lang : Language') : Except Err (Nat × DBState) :=
  match generateUid tr (st.users.map (·.uid)) cfg.minUid with
  | .error e => .error e
  | .ok uid =>
    let row : UserRow :=
      { idx := newIdx, username := some username,
        passwordDigest := Digest.current (crypto.argon2Hash password),
        name := name, uid := uid, shell := some shell, preferredLanguage := lang,
        activated := false, lastLoginAt := none }
    .ok (newIdx, { st with users := st.users ++ [row], cache := none })

/-- `Users.delete`: `DELETE ... RETURNING idx`; `NoSuchEntryError` when no row
was deleted, otherwise the cache is cleared and the idx returned. -/
def delete (st : DBState) (userIdx : Nat) : Except Err (Nat × DBState) :=
  if st.users.any (fun u => u.idx == userIdx) then
    .ok (userIdx,
      { st with users := st.users.filter (fun u => u.idx != userIdx), cache := none })
  else .error .noSuchEntry

/-- `Users.updateLastLoginAt`:
`UPDATE users SET last_login_at = NOW() WHERE idx = $1`; the affected row count
is not inspected. -/
def updateLastLoginAt (now : Nat) (st : DBState) (userIdx : Nat) : DBState :=
  { st with users := st.users.map (fun u =>
      if u.idx == userIdx then { u with lastLoginAt := some now } else u) }

/-- `Users.activate`: `UPDATE users SET activated = TRUE WHERE idx = $1`; the
affected row count is not inspected. -/
def activate (st : DBState) (userIdx : Nat) : DBState :=
  { st with users := st.users.map (fun u =>
      if u.idx == userIdx then { u with activated := true } else u) }

/-- `Users.deactivate`: `UPDATE users SET activated = FALSE WHERE idx = $1`; the
affected row count is not inspected. -/
def deactivate (st : DBState) (userIdx : Nat) : DBState :=
  { st with users := st.users.map (fun u =>
      if u.idx == userIdx then { u with activated := false } else u) }

/-- `Users.changePassword`: re-hashes with argon2 and updates the row;
`NoSuchEntryError` when no row matched. The cache is left untouched. -/
def changePassword (crypto : Crypto) (st : DBState) (userIdx : Nat)
    (newPassword : List Nat) : Except Err (Nat × DBState) :=
  if st.users.any (fun u => u.idx == userIdx) then
    .ok (userIdx, { st with users := st.users.map (fun u =>
        if u.idx == userIdx then
          { u with passwordDigest := Digest.current (crypto.argon2Hash newPassword) }
        else u) })
  else .error .noSuchEntry

/-- `Users.changeShell`: updates the row's shell; `NoSuchEntryError` when no row
matched; clears the cache. -/
def changeShell (st : DBState) (userIdx : Nat) (shell : String) :
    Except Err (Nat × DBState) :=
  if st.users.any (fun u => u.idx == userIdx) then
    let users' := st.users.map (fun u =>
      if u.idx == userIdx then { u with shell := some shell } else u)
    .ok (userIdx, { st with users := users', cache := none })
  else .error .noSuchEntry

/-- The null-padding of `authenticate`'s legacy branch:
`Buffer.from([...password].map(x => x + '\u0000').join(''))` — one null byte
appended after every character of the password. -/
def nullAppend (password : List Nat) : List Nat :=
  password.flatMap (fun b => [b, 0])

/-- The hash primitive selected by the legacy tag:
`crypto.createHash(phcObject.id === 'mssql-sha1' ? 'sha1' : 'sha512')`. -/
def legacyPrimitive (crypto : Crypto) : LegacyTag → (List Nat → List Nat)
  | .mssqlSha1 => crypto.sha1
  | .mssqlSha512 => crypto.sha512

/-- Digest verification as `authenticate` performs it: the legacy branch hashes
the null-padded password followed by the stored salt
(`hash.update(nullAppendedPassword); hash.update(phcObject.salt)`) and compares
bytes exactly; the current branch is `argon2.verify`. -/
def verifyDigest (crypto : Crypto) (d : Digest) (password : List Nat) : Bool :=
  match d with
  | .legacy tag salt stored =>
      legacyPrimitive crypto tag (nullAppend password ++ salt) == stored
  | .current phcString => crypto.argon2Verify phcString password

/-- `Users.authenticate`: look up by username (`NoSuchEntryError` when absent;
`rows[0]` is used); `NotActivatedError` when the account is deactivated,
checked before any digest work; then verify the digest — a legacy digest is
compared byte-exactly and, on match, immediately re-hashed via
`changePassword`; a current digest goes through `argon2.verify`; a mismatch is
`AuthenticationError`. On success `updateLastLoginAt` runs and the idx is
returned. -/
def authenticate (crypto : Crypto) (now : Nat) (st : DBState)
    (username : String) (password : List Nat) : Except Err (Nat × DBState) :=
  match st.users.find? (fun u => u.username == some username) with
  | none => .error .noSuchEntry
  | some row =>
    if !row.activated then .error .notActivated
    else
      match row.passwordDigest with
      | .legacy tag salt stored =>
          if legacyPrimitive crypto tag (nullAppend password ++ salt) ≠ stored then
            .error .authenticationError
          else
            match changePassword crypto st row.idx password with
            | .error e => .error e
            | .ok r => .ok (row.idx, updateLastLoginAt now r.2 row.idx)
      | .current phcString =>
          if !crypto.argon2Verify phcString password then
            .error .authenticationError
          else .ok (row.idx, updateLastLoginAt now st row.idx)

/-- `Users.resetResendCountIfExpired`:
`UPDATE password_change_tokens SET resend_count = 0
 WHERE user_idx = $1 AND expires <= now()`. -/
def resetResendCountIfExpired (now : Nat) (st : DBState) (userIdx : Nat) : DBState :=
  { st with tokens := st.tokens.map (fun t =>
      if t.userIdx == userIdx && decide (t.expires ≤ now) then
        { t with resendCount := 0 }
      else t) }

/-- The 1-day expiry `moment().add(1, 'day').toDate()`, time in seconds. -/
def oneDay : Nat := 86400

/-- `Users.generatePasswordChangeToken`: first `resetResendCountIfExpired`, then
`INSERT INTO password_change_tokens AS p(user_idx, token, expires) VALUES
($1, $2, $3) ON CONFLICT (user_idx) DO UPDATE SET token = $2,
resend_count = p.resend_count + 1, expires = $3`. The 32 random bytes are
external to the engine; `newToken` stands for their hex encoding. On a fresh
insert `resend_count` takes its schema default of 0 (modelled from the spec:
the schema is not under `src/`; section 4.2's stale-reset rule has a fresh
token's count start at 0). -/
def generatePasswordChangeToken (now : Nat) (newToken : String) (st : DBState)
    (userIdx : Nat) : String × DBState :=
  let st1 := resetResendCountIfExpired now st userIdx
  let expires := now + oneDay
  let tokens :=
    if st1.tokens.any (fun t => t.userIdx == userIdx) then
      st1.tokens.map (fun t =>
        if t.userIdx == userIdx then
          { t with token := newToken, resendCount := t.resendCount + 1, expires := expires }
        else t)
    else
      st1.tokens ++
        [{ userIdx := userIdx, token := newToken, resendCount := 0, expires := expires }]
  (newToken, { st1 with tokens := tokens })

/-- `Users.getResendCount`: look up by token, `NoSuchEntryError` when absent. -/
def getResendCount (st : DBState) (token : String) : Except Err Nat :=
  match st.tokens.find? (fun t => t.token == token) with
  | none => .error .noSuchEntry
  | some t => .ok t.resendCount

/-- `Users.getUserIdxByEmailAddress`:
`SELECT owner_idx FROM email_addresses WHERE LOWER(address_local) = LOWER($1)
AND address_domain = $2`; `NoSuchEntryError` on zero rows, else the first
row's owner. -/
def getUserIdxByEmailAddress (emails : List EmailRow)
    (emailLocal emailDomain : String) : Except Err Nat :=
  match emails.find? (fun e =>
      lowerString e.addressLocal == lowerString emailLocal
        && e.addressDomain == emailDomain) with
  | none => .error .noSuchEntry
  | some e => .ok e.ownerIdx

end Users

namespace Hosts

/-- `Hosts.getHostGroupByIdx`: `SELECT ... WHERE idx = $1`; `NoSuchEntryError`
on zero rows. -/
def getHostGroupByIdx (hostGroups : List HostGroup) (hostGroupIdx : Nat) :
    Except Err HostGroup :=
  match hostGroups.find? (fun g => g.idx == hostGroupIdx) with
  | none => .error .noSuchEntry
  | some g => .ok g

/-- `Hosts.authorizeUserByHost`: a null `hostGroupIdx` passes; then a null
`requiredPermissionIdx` passes; otherwise
`model.permissions.checkUserHavePermission` decides, a negative answer raising
`AuthorizationError`. `checkPerm` is that external collaborator. -/
def authorizeUserByHost (checkPerm : Nat → Nat → Bool) (hostGroups : List HostGroup)
    (userIdx : Nat) (host : Host) : Except Err Unit :=
  match host.hostGroupIdx with
  | none => .ok ()
  | some gIdx =>
    match getHostGroupByIdx hostGroups gIdx with
    | .error e => .error e
    | .ok hostGroup =>
      match hostGroup.requiredPermissionIdx with
      | none => .ok ()
      | some p =>
        if !checkPerm userIdx p then .error .authorizationError else .ok ()

end Hosts

/-- The set of values the spec's allocation rule designates: integers `≥ floor`
that are one greater than some existing UID but are not themselves an existing
UID. -/
def uidRuleSet (uids : List Nat) (floor : Nat) : Set Nat :=
  {n | floor ≤ n ∧ (∃ u ∈ uids, n = u + 1) ∧ n ∉ uids}

/-- A concrete stand-in for the external crypto collaborators, used to
instantiate theorems at concrete inputs. -/
def crypto0 : Crypto :=
  { sha1 := fun l => l, sha512 := fun l => l.reverse,
    argon2Hash := fun _ => "argon", argon2Verify := fun d _ => d == "argon" }

/-- A concrete activated account row. -/
def aliceRow : UserRow :=
  { idx := 1, username := some "alice", passwordDigest := .current "argon",
    name := "Alice", uid := 10000, shell := some "/bin/bash",
    preferredLanguage := .ko, activated := true, lastLoginAt := none }

/-- A concrete account with a legacy `mssql-sha1` digest: under `crypto0`
(whose sha1 stand-in is the identity), salt `[2]` and stored hash `[1, 0, 2]`
match password `[1]` (null-padded to `[1, 0]`). -/
def legacyRow : UserRow :=
  { idx := 4, username := some "dave", passwordDigest := .legacy .mssqlSha1 [2] [1, 0, 2],
    name := "Dave", uid := 10001, shell := some "/bin/sh",
    preferredLanguage := .en, activated := true, lastLoginAt := none }

lemma mem_uid_gaps (uids : List Nat) (floor : Nat) (b : Nat) :
    b ∈ uids.filter (fun b => decide (floor ≤ b + 1) && !(uids.contains (b + 1)))
    ↔ b ∈ uids ∧ floor ≤ b + 1 ∧ b + 1 ∉ uids := by
  simp [List.mem_filter, List.elem_iff, and_assoc]

lemma uidScan_isLeast (uids : List Nat) (floor : Nat)
    (hne : ∃ u ∈ uids, floor ≤ u) :
    IsLeast (uidRuleSet uids floor) (Users.uidScan uids floor) := by
  classical
  unfold Users.uidScan
  -- gaps is nonempty: the maximum existing uid gives a qualifying row
  obtain ⟨u0, hu0mem, hu0⟩ := hne
  have hne' : uids ≠ [] := by
    intro h; rw [h] at hu0mem; exact absurd hu0mem (List.not_mem_nil u0)
  obtain ⟨M, hM⟩ : ∃ M, uids.max? = some M := by
    cases h : uids.max? with
    | none => exact absurd (List.max?_eq_none_iff.mp h) hne'
    | some M => exact ⟨M, rfl⟩
  obtain ⟨hMmem, hMub⟩ := List.max?_eq_some_iff'.mp hM
  have hMgap : M ∈ uids.filter (fun b => decide (floor ≤ b + 1) && !(uids.contains (b + 1))) := by
    rw [mem_uid_gaps]
    refine ⟨hMmem, le_trans hu0 (le_trans (hMub u0 hu0mem) (Nat.le_succ M)), ?_⟩
    intro hmem
    exact absurd (hMub _ hmem) (by omega)
  cases hmin : (uids.filter (fun b => decide (floor ≤ b + 1) && !(uids.contains (b + 1)))).min? with
  | none =>
      rw [List.min?_eq_none_iff] at hmin
      rw [hmin] at hMgap
      exact absurd hMgap (List.not_mem_nil M)
  | some b =>
      obtain ⟨hbmem, hblb⟩ := List.min?_eq_some_iff'.mp hmin
      rw [mem_uid_gaps] at hbmem
      constructor
      · exact ⟨hbmem.2.1, ⟨b, hbmem.1, rfl⟩, hbmem.2.2⟩
      · rintro n ⟨hnf, ⟨u, humem, rfl⟩, hnotin⟩
        have hu : u ∈ uids.filter (fun b => decide (floor ≤ b + 1) && !(uids.contains (b + 1))) :=
          (mem_uid_gaps uids floor u).mpr ⟨humem, hnf, hnotin⟩
        exact Nat.succ_le_succ (hblb u hu)

lemma uidScan_floor (uids : List Nat) (floor : Nat)
    (hlt : ∀ u ∈ uids, u < floor) :
    Users.uidScan uids floor = floor := by
  classical
  unfold Users.uidScan
  cases hmin : (uids.filter (fun b => decide (floor ≤ b + 1) && !(uids.contains (b + 1)))).min? with
  | none => rfl
  | some b =>
      obtain ⟨hbmem, _⟩ := List.min?_eq_some_iff'.mp hmin
      rw [mem_uid_gaps] at hbmem
      have := hlt b hbmem.1
      have := hbmem.2.1
      show b + 1 = floor
      omega

/-- C1: with the exclusive lock held, `generateUid` returns the smallest integer
≥ the floor that is one greater than some existing UID but is not itself an
existing UID (whenever some UID ≥ floor exists, which guarantees such an integer
exists); it returns the floor itself when no UID ≥ the floor exists yet; and on
existing UIDs {10,11,13} with floor 10 it returns 12. -/
theorem generateUid_gap_rule (tr : Transaction) (uids : List Nat) (floor : Nat)
    (hlock : tr.exclusiveLocks.contains "users" = true) :
    Users.generateUid tr uids floor = .ok (Users.uidScan uids floor)
    ∧ ((∃ u ∈ uids, floor ≤ u) →
        IsLeast (uidRuleSet uids floor) (Users.uidScan uids floor))
    ∧ ((∀ u ∈ uids, u < floor) → Users.uidScan uids floor = floor)
    ∧ Users.uidScan [10, 11, 13] 10 = 12 := by
  refine ⟨?_, fun h => uidScan_isLeast uids floor h,
    fun h => uidScan_floor uids floor h, by decide⟩
  unfold Users.generateUid Transaction.ensureHasAccessExclusiveLock
  rw [hlock]
  rfl

/-- Witness for C1 at a concrete input: the lock is held, and with UIDs {10,11,13}
and floor 10 the allocator returns 12, the least element of the rule's set. -/
theorem generateUid_gap_rule_witness :
    Users.generateUid ⟨["users"]⟩ [10, 11, 13] 10 = .ok 12
    ∧ IsLeast (uidRuleSet [10, 11, 13] 10) 12 := by
  have h := generateUid_gap_rule ⟨["users"]⟩ [10, 11, 13] 10 (by decide)
  refine ⟨by rw [h.1, h.2.2.2], ?_⟩
  have := h.2.1 ⟨10, by decide, by decide⟩
  rwa [h.2.2.2] at this

/-- C8: `generateUid` asserts the exclusive write lock on the `users` table
before the gap-scan query: on a transaction not holding the lock it fails with
the lock error and no scan result is produced; with the lock held it returns
the scan's result. -/
theorem generateUid_requires_lock (tr : Transaction) (uids : List Nat) (minUid : Nat) :
    (tr.exclusiveLocks.contains "users" = false →
      Users.generateUid tr uids minUid = .error .lockNotHeld)
    ∧ (tr.exclusiveLocks.contains "users" = true →
      Users.generateUid tr uids minUid = .ok (Users.uidScan uids minUid)) := by
  constructor <;> intro h <;>
  · unfold Users.generateUid Transaction.ensureHasAccessExclusiveLock
    rw [h]
    rfl

/-- Witness for C8: without the lock the call fails, with it the scan runs. -/
theorem generateUid_requires_lock_witness :
    Users.generateUid ⟨[]⟩ [10] 10 = .error .lockNotHeld
    ∧ Users.generateUid ⟨["users"]⟩ [10] 10 = .ok 11 := by
  refine ⟨(generateUid_requires_lock ⟨[]⟩ [10] 10).1 (by decide), ?_⟩
  rw [(generateUid_requires_lock ⟨["users"]⟩ [10] 10).2 (by decide)]
  rfl

/-- C5: `authorizeUserByHost` passes unconditionally when the host has no host
group; otherwise, once the host group is loaded, it passes unconditionally when
the group requires no permission; otherwise it fails with `AuthorizationError`
exactly when the permission-check collaborator answers false for
`(userIdx, requiredPermissionIdx)` and passes when it answers true. -/
theorem authorizeUserByHost_cases (checkPerm : Nat → Nat → Bool)
    (hostGroups : List HostGroup) (userIdx : Nat) (host : Host) :
    (host.hostGroupIdx = none →
      Hosts.authorizeUserByHost checkPerm hostGroups userIdx host = .ok ())
    ∧ (∀ gIdx g, host.hostGroupIdx = some gIdx →
        Hosts.getHostGroupByIdx hostGroups gIdx = .ok g →
        ((g.requiredPermissionIdx = none →
            Hosts.authorizeUserByHost checkPerm hostGroups userIdx host = .ok ())
          ∧ (∀ p, g.requiredPermissionIdx = some p →
              Hosts.authorizeUserByHost checkPerm hostGroups userIdx host =
                (if checkPerm userIdx p then .ok () else .error .authorizationError)))) := by
  constructor
  · intro h
    unfold Hosts.authorizeUserByHost
    rw [h]
  · intro gIdx g hg hload
    unfold Hosts.authorizeUserByHost
    rw [hg]
    constructor
    · intro hnone
      simp only [hload, hnone]
    · intro p hp
      simp only [hload, hp]
      cases hcp : checkPerm userIdx p <;> rfl

/-- Witness for C5: a groupless host passes, a group without required
permission passes, and a permission-guarded group follows the checker. -/
theorem authorizeUserByHost_cases_witness :
    Hosts.authorizeUserByHost (fun _ _ => false) [] 1 ⟨1, "h", "10.0.0.1", none⟩ = .ok ()
    ∧ Hosts.authorizeUserByHost (fun _ _ => false) [⟨5, "g", none⟩] 1
        ⟨1, "h", "10.0.0.1", some 5⟩ = .ok ()
    ∧ Hosts.authorizeUserByHost (fun _ _ => false) [⟨5, "g", some 9⟩] 1
        ⟨1, "h", "10.0.0.1", some 5⟩ = .error .authorizationError
    ∧ Hosts.authorizeUserByHost (fun _ _ => true) [⟨5, "g", some 9⟩] 1
        ⟨1, "h", "10.0.0.1", some 5⟩ = .ok () := by
  refine ⟨(authorizeUserByHost_cases (fun _ _ => false) [] 1
    ⟨1, "h", "10.0.0.1", none⟩).1 rfl, ?_, ?_, ?_⟩
  · exact ((authorizeUserByHost_cases (fun _ _ => false) [⟨5, "g", none⟩] 1
      ⟨1, "h", "10.0.0.1", some 5⟩).2 5 ⟨5, "g", none⟩ rfl rfl).1 rfl
  · rw [((authorizeUserByHost_cases (fun _ _ => false) [⟨5, "g", some 9⟩] 1
      ⟨1, "h", "10.0.0.1", some 5⟩).2 5 ⟨5, "g", some 9⟩ rfl rfl).2 9 rfl]
    rfl
  · rw [((authorizeUserByHost_cases (fun _ _ => true) [⟨5, "g", some 9⟩] 1
      ⟨1, "h", "10.0.0.1", some 5⟩).2 5 ⟨5, "g", some 9⟩ rfl rfl).2 9 rfl]
    rfl

/-- C9: on a `userIdx` matching no account row, `activate`, `deactivate` and
`updateLastLoginAt` return successfully as silent no-ops (they never inspect
the affected row count), while `delete`, `changePassword` and `changeShell`
fail with `NoSuchEntryError`. -/
theorem missing_user_silent_vs_notfound (crypto : Crypto) (now : Nat) (st : DBState)
    (userIdx : Nat) (pw : List Nat) (sh : String)
    (habsent : ∀ u ∈ st.users, u.idx ≠ userIdx) :
    Users.activate st userIdx = st
    ∧ Users.deactivate st userIdx = st
    ∧ Users.updateLastLoginAt now st userIdx = st
    ∧ Users.delete st userIdx = .error .noSuchEntry
    ∧ Users.changePassword crypto st userIdx pw = .error .noSuchEntry
    ∧ Users.changeShell st userIdx sh = .error .noSuchEntry := by
  have hbeq : ∀ u ∈ st.users, (u.idx == userIdx) = false := by
    intro u hu
    exact beq_eq_false_iff_ne.mpr (habsent u hu)
  have hmapid : ∀ (f : UserRow → UserRow),
      st.users.map (fun u => if u.idx == userIdx then f u else u) = st.users := by
    intro f
    have := List.map_congr_left (l := st.users)
      (g := id) (f := fun u => if u.idx == userIdx then f u else u)
      (fun u hu => by
        show (if (u.idx == userIdx) = true then f u else u) = id u
        rw [hbeq u hu]
        rfl)
    rw [this, List.map_id]
  have hany : st.users.any (fun u => u.idx == userIdx) = false :=
    List.any_eq_false.mpr (fun u hu => by rw [hbeq u hu]; exact Bool.false_ne_true)
  refine ⟨?_, ?_, ?_, ?_, ?_, ?_⟩
  · show ({ st with users := _ } : DBState) = st
    rw [hmapid]
  · show ({ st with users := _ } : DBState) = st
    rw [hmapid]
  · show ({ st with users := _ } : DBState) = st
    rw [hmapid]
  · unfold Users.delete
    rw [hany]
    rfl
  · unfold Users.changePassword
    rw [hany]
    rfl
  · unfold Users.changeShell
    rw [hany]
    rfl

/-- Witness for C9: with only account idx 1 present, idx 2 is a silent no-op
for the three update calls and `NoSuchEntryError` for the other three. -/
theorem missing_user_silent_vs_notfound_witness :
    Users.activate ⟨[aliceRow], [], none⟩ 2 = ⟨[aliceRow], [], none⟩
    ∧ Users.deactivate ⟨[aliceRow], [], none⟩ 2 = ⟨[aliceRow], [], none⟩
    ∧ Users.updateLastLoginAt 77 ⟨[aliceRow], [], none⟩ 2 = ⟨[aliceRow], [], none⟩
    ∧ Users.delete ⟨[aliceRow], [], none⟩ 2 = .error .noSuchEntry
    ∧ Users.changePassword crypto0 ⟨[aliceRow], [], none⟩ 2 [1, 2] = .error .noSuchEntry
    ∧ Users.changeShell ⟨[aliceRow], [], none⟩ 2 "/bin/zsh" = .error .noSuchEntry :=
  missing_user_silent_vs_notfound crypto0 77 ⟨[aliceRow], [], none⟩ 2 [1, 2] "/bin/zsh"
    (by intro u hu; simp [aliceRow] at hu; rw [hu]; decide)

/-- C6: the directory-projection build emits an entry exactly for the accounts
whose `username` and `shell` are both non-null: the build equals the fold that
keeps each account's successful conversion and drops the failed ones, a
conversion succeeds iff both fields are non-null, and the build as a whole is
total — one unprojectable account only omits itself. -/
theorem usersToPosixAccounts_projectable (cfg : Config) (users : List UserRow) :
    Users.usersToPosixAccounts cfg users
      = users.filterMap (fun u => (Users.userToPosixAccount cfg u).toOption)
    ∧ ∀ u ∈ users,
        (Users.userToPosixAccount cfg u).toOption.isSome
          = (u.username.isSome && u.shell.isSome) := by
  constructor
  · induction users with
    | nil => rfl
    | cons u rest ih =>
        show (match Users.userToPosixAccount cfg u with
              | .ok e => e :: Users.usersToPosixAccounts cfg rest
              | .error _ => Users.usersToPosixAccounts cfg rest) = _
        rw [List.filterMap_cons]
        cases h : Users.userToPosixAccount cfg u with
        | ok e => rw [ih]; rfl
        | error e => rw [ih]; rfl
  · intro u _
    unfold Users.userToPosixAccount
    cases u.username <;> cases u.shell <;> rfl

/-- Witness for C6 at a concrete list: of three accounts — complete, missing
username, missing shell — only the complete one is projected, as one entry. -/
theorem usersToPosixAccounts_projectable_witness :
    Users.usersToPosixAccounts ⟨"users", "dc=snucse", "/home", 500, 10000⟩
        [aliceRow, { aliceRow with idx := 2, username := none },
          { aliceRow with idx := 3, shell := none }]
      = [⟨"cn=alice,ou=users,dc=snucse", "alice", "alice", "Alice", "/home/alice",
          "/bin/bash", posixAccountObjectClass, 10000, 500⟩]
    ∧ (Users.userToPosixAccount ⟨"users", "dc=snucse", "/home", 500, 10000⟩
        { aliceRow with idx := 2, username := none }).toOption.isSome = false := by
  have h := usersToPosixAccounts_projectable ⟨"users", "dc=snucse", "/home", 500, 10000⟩
    [aliceRow, { aliceRow with idx := 2, username := none },
      { aliceRow with idx := 3, shell := none }]
  refine ⟨by rw [h.1]; rfl, ?_⟩
  rw [h.2 { aliceRow with idx := 2, username := none } (by simp)]
  rfl

lemma changePassword_ok (crypto : Crypto) (st : DBState) (userIdx : Nat) (pw : List Nat)
    (hmem : st.users.any (fun u => u.idx == userIdx) = true) :
    Users.changePassword crypto st userIdx pw
      = .ok (userIdx, { st with users := st.users.map (fun u =>
          if u.idx == userIdx then
            { u with passwordDigest := Digest.current (crypto.argon2Hash pw) }
          else u) }) := by
  unfold Users.changePassword
  rw [hmem]
  rfl

lemma updateLastLoginAt_stamps (now : Nat) (st : DBState) (idx : Nat) :
    ∀ u ∈ (Users.updateLastLoginAt now st idx).users, u.idx = idx →
      u.lastLoginAt = some now := by
  intro u hu hidx
  unfold Users.updateLastLoginAt at hu
  simp only [List.mem_map] at hu
  obtain ⟨v, hv, rfl⟩ := hu
  cases h : (v.idx == idx) with
  | true => simp [h]
  | false =>
      simp only [h, Bool.false_eq_true, if_false] at hidx
      exact absurd hidx (by simpa using h)

lemma stamped_digest_after_change (crypto : Crypto) (now : Nat) (st : DBState)
    (rowIdx : Nat) (pw : List Nat) :
    ∀ u ∈ (Users.updateLastLoginAt now { st with users := st.users.map (fun w =>
        if w.idx == rowIdx then
          { w with passwordDigest := Digest.current (crypto.argon2Hash pw) }
        else w) } rowIdx).users,
      u.idx = rowIdx → u.passwordDigest = Digest.current (crypto.argon2Hash pw) := by
  intro u hu hidx
  unfold Users.updateLastLoginAt at hu
  simp only [List.mem_map] at hu
  obtain ⟨v, hv, rfl⟩ := hu
  obtain ⟨w, hw, rfl⟩ := hv
  cases h : (w.idx == rowIdx) with
  | true => simp [h]
  | false =>
      simp only [h, Bool.false_eq_true, if_false] at hidx ⊢
      exact absurd hidx (by simpa using h)

lemma authenticate_legacy_ok (crypto : Crypto) (now : Nat) (st : DBState)
    (username : String) (password : List Nat) (row : UserRow)
    (tag : LegacyTag) (salt stored : List Nat)
    (hfind : st.users.find? (fun u => u.username == some username) = some row)
    (hact : row.activated = true)
    (hdig : row.passwordDigest = .legacy tag salt stored)
    (hmatch : Users.legacyPrimitive crypto tag (Users.nullAppend password ++ salt) = stored) :
    Users.authenticate crypto now st username password
      = .ok (row.idx, Users.updateLastLoginAt now
          { st with users := st.users.map (fun w =>
              if w.idx == row.idx then
                { w with passwordDigest := Digest.current (crypto.argon2Hash password) }
              else w) } row.idx) := by
  have hmem := List.mem_of_find?_eq_some hfind
  have hany : st.users.any (fun u => u.idx == row.idx) = true :=
    List.any_eq_true.mpr ⟨row, hmem, by simp⟩
  have hcp := changePassword_ok crypto st row.idx password hany
  unfold Users.authenticate
  rw [hfind]
  simp only [hact, Bool.not_true, Bool.false_eq_true, if_false, hdig]
  rw [if_neg (fun h => h hmatch), hcp]

lemma authenticate_current_ok (crypto : Crypto) (now : Nat) (st : DBState)
    (username : String) (password : List Nat) (row : UserRow) (phcString : String)
    (hfind : st.users.find? (fun u => u.username == some username) = some row)
    (hact : row.activated = true)
    (hdig : row.passwordDigest = .current phcString)
    (hmatch : crypto.argon2Verify phcString password = true) :
    Users.authenticate crypto now st username password
      = .ok (row.idx, Users.updateLastLoginAt now st row.idx) := by
  unfold Users.authenticate
  rw [hfind]
  simp only [hact, Bool.not_true, Bool.false_eq_true, if_false, hdig, hmatch]

/-- C3: `authenticate` fails with `NoSuchEntryError` when no account has the
username; otherwise with `NotActivatedError` when the account is deactivated —
decided before any digest verification, so it holds whatever the digest and the
password, in particular for the correct password; otherwise with
`AuthenticationError` exactly on digest mismatch; and on success it stamps the
account's `lastLoginAt` and returns its idx. -/
theorem authenticate_order_and_errors (crypto : Crypto) (now : Nat) (st : DBState)
    (username : String) (password : List Nat) :
    (st.users.find? (fun u => u.username == some username) = none →
      Users.authenticate crypto now st username password = .error .noSuchEntry)
    ∧ (∀ row, st.users.find? (fun u => u.username == some username) = some row →
        (row.activated = false →
          Users.authenticate crypto now st username password = .error .notActivated)
        ∧ (row.activated = true →
            Users.verifyDigest crypto row.passwordDigest password = false →
            Users.authenticate crypto now st username password
              = .error .authenticationError)
        ∧ (row.activated = true →
            Users.verifyDigest crypto row.passwordDigest password = true →
            ∃ st', Users.authenticate crypto now st username password
                = .ok (row.idx, st')
              ∧ ∀ u ∈ st'.users, u.idx = row.idx → u.lastLoginAt = some now)) := by
  constructor
  · intro h
    unfold Users.authenticate
    rw [h]
  · intro row hfind
    refine ⟨?_, ?_, ?_⟩
    · intro hact
      unfold Users.authenticate
      rw [hfind]
      simp [hact]
    · intro hact hverify
      unfold Users.authenticate
      rw [hfind]
      cases hdig : row.passwordDigest with
      | legacy tag salt stored =>
          rw [hdig] at hverify
          unfold Users.verifyDigest at hverify
          have hne : Users.legacyPrimitive crypto tag (Users.nullAppend password ++ salt)
              ≠ stored := by simpa using hverify
          simp only [hact, Bool.not_true, Bool.false_eq_true, if_false, hdig]
          rw [if_pos hne]
      | current phcString =>
          rw [hdig] at hverify
          unfold Users.verifyDigest at hverify
          have hv : crypto.argon2Verify phcString password = false := hverify
          simp [hact, hdig, hv]
    · intro hact hverify
      cases hdig : row.passwordDigest with
      | legacy tag salt stored =>
          rw [hdig] at hverify
          unfold Users.verifyDigest at hverify
          have hmatch : Users.legacyPrimitive crypto tag
              (Users.nullAppend password ++ salt) = stored := by simpa using hverify
          refine ⟨_, authenticate_legacy_ok crypto now st username password row
            tag salt stored hfind hact hdig hmatch, ?_⟩
          exact updateLastLoginAt_stamps now _ row.idx
      | current phcString =>
          rw [hdig] at hverify
          unfold Users.verifyDigest at hverify
          refine ⟨_, authenticate_current_ok crypto now st username password row
            phcString hfind hact hdig hverify, ?_⟩
          exact updateLastLoginAt_stamps now st row.idx

/-- Witness for C3: "bob" is unknown; deactivated "carol" with the correct
password gets `NotActivatedError`; activated "alice" with a wrong password gets
`AuthenticationError`; with the right password she logs in and `lastLoginAt`
is stamped. -/
theorem authenticate_order_and_errors_witness :
    Users.authenticate crypto0 50 ⟨[aliceRow], [], none⟩ "bob" [1]
      = .error .noSuchEntry
    ∧ Users.authenticate crypto0 50
        ⟨[{ aliceRow with username := some "carol", activated := false }], [], none⟩
        "carol" [1] = .error .notActivated
    ∧ Users.authenticate (Crypto.mk id id (fun _ => "argon") (fun _ _ => false)) 50
        ⟨[aliceRow], [], none⟩ "alice" [1] = .error .authenticationError
    ∧ ∃ st', Users.authenticate crypto0 50 ⟨[aliceRow], [], none⟩ "alice" [1]
          = .ok (1, st')
        ∧ ∀ u ∈ st'.users, u.idx = 1 → u.lastLoginAt = some 50 := by
  refine ⟨?_, ?_, ?_, ?_⟩
  · exact (authenticate_order_and_errors crypto0 50 ⟨[aliceRow], [], none⟩ "bob" [1]).1
      (by rfl)
  · exact ((authenticate_order_and_errors crypto0 50
      ⟨[{ aliceRow with username := some "carol", activated := false }], [], none⟩
      "carol" [1]).2 { aliceRow with username := some "carol", activated := false }
      (by rfl)).1 rfl
  · exact ((authenticate_order_and_errors
      (Crypto.mk id id (fun _ => "argon") (fun _ _ => false)) 50
      ⟨[aliceRow], [], none⟩ "alice" [1]).2 aliceRow (by rfl)).2.1 rfl rfl
  · exact ((authenticate_order_and_errors crypto0 50 ⟨[aliceRow], [], none⟩
      "alice" [1]).2 aliceRow (by rfl)).2.2 rfl rfl

/-- C4: for an activated account with a legacy-tagged digest, `authenticate`
hashes the password with one null byte appended after every character,
concatenated with the stored salt, under the primitive the tag selects, and
compares bytes exactly; on a match it immediately re-hashes via
`changePassword`, so every matching row's stored digest is in current format
afterwards; on a mismatch it fails with `AuthenticationError`. -/
theorem authenticate_legacy_migration (crypto : Crypto) (now : Nat) (st : DBState)
    (username : String) (password : List Nat) (row : UserRow)
    (tag : LegacyTag) (salt stored : List Nat)
    (hfind : st.users.find? (fun u => u.username == some username) = some row)
    (hact : row.activated = true)
    (hdig : row.passwordDigest = .legacy tag salt stored) :
    (Users.legacyPrimitive crypto tag (Users.nullAppend password ++ salt) = stored →
      ∃ st', Users.authenticate crypto now st username password = .ok (row.idx, st')
        ∧ ∀ u ∈ st'.users, u.idx = row.idx →
            u.passwordDigest = Digest.current (crypto.argon2Hash password))
    ∧ (Users.legacyPrimitive crypto tag (Users.nullAppend password ++ salt) ≠ stored →
        Users.authenticate crypto now st username password
          = .error .authenticationError) := by
  constructor
  · intro hmatch
    refine ⟨_, authenticate_legacy_ok crypto now st username password row tag salt
      stored hfind hact hdig hmatch, ?_⟩
    exact stamped_digest_after_change crypto now st row.idx password
  · intro hne
    unfold Users.authenticate
    rw [hfind]
    simp only [hact, Bool.not_true, Bool.false_eq_true, if_false, hdig]
    rw [if_pos hne]

/-- Witness for C4: "dave" holds a legacy sha1 digest; the right password logs
him in and leaves a current-format digest, a wrong one is rejected. -/
theorem authenticate_legacy_migration_witness :
    (∃ st', Users.authenticate crypto0 9 ⟨[legacyRow], [], none⟩ "dave" [1]
        = .ok (4, st')
      ∧ ∀ u ∈ st'.users, u.idx = 4 → u.passwordDigest = Digest.current "argon")
    ∧ Users.authenticate crypto0 9 ⟨[legacyRow], [], none⟩ "dave" [3]
        = .error .authenticationError := by
  constructor
  · exact (authenticate_legacy_migration crypto0 9 ⟨[legacyRow], [], none⟩ "dave" [1]
      legacyRow .mssqlSha1 [2] [1, 0, 2] rfl rfl rfl).1 rfl
  · exact (authenticate_legacy_migration crypto0 9 ⟨[legacyRow], [], none⟩ "dave" [3]
      legacyRow .mssqlSha1 [2] [1, 0, 2] rfl rfl rfl).2 (by decide)

/-- C2 counterexample: user 7's token "t0" has resendCount 5 and expired at
time 100; issuing again at time 100 stores resendCount 1, not 0 — the stale
count is reset to 0 and the upsert's conflict branch then increments it. -/
theorem generatePasswordChangeToken_expired_not_zero :
    Users.getResendCount
        (Users.generatePasswordChangeToken 100 "t1" ⟨[], [⟨7, "t0", 5, 100⟩], none⟩ 7).2
        "t1" = .ok 1
    ∧ Users.getResendCount
        (Users.generatePasswordChangeToken 100 "t1" ⟨[], [⟨7, "t0", 5, 100⟩], none⟩ 7).2
        "t1" ≠ .ok 0 := by
  refine ⟨rfl, fun h => ?_⟩
  have h1 : Users.getResendCount
      (Users.generatePasswordChangeToken 100 "t1" ⟨[], [⟨7, "t0", 5, 100⟩], none⟩ 7).2
      "t1" = .ok 1 := rfl
  rw [h1] at h
  exact Nat.one_ne_zero (Except.ok.inj h)

/-- C2 amended: with `row` the user's unique token row, reissuing before expiry
increments `resendCount` by one and never resets it to 0; reissuing once the
token has expired resets the stale count to 0 and the upsert's conflict branch
then increments it, so that next issuance stores `resendCount` 1 (not 0). -/
theorem generatePasswordChangeToken_resend (now : Nat) (newToken : String)
    (st : DBState) (userIdx : Nat) (row : TokenRow)
    (hmem : row ∈ st.tokens) (hrow : row.userIdx = userIdx)
    (huniq : ∀ t ∈ st.tokens, t.userIdx = userIdx → t = row) :
    (now < row.expires →
      ∀ t ∈ (Users.generatePasswordChangeToken now newToken st userIdx).2.tokens,
        t.userIdx = userIdx → t.resendCount = row.resendCount + 1)
    ∧ (row.expires ≤ now →
      ∀ t ∈ (Users.generatePasswordChangeToken now newToken st userIdx).2.tokens,
        t.userIdx = userIdx → t.resendCount = 1) := by
  classical
  have hany : ((Users.resetResendCountIfExpired now st userIdx).tokens.any
      (fun t => t.userIdx == userIdx)) = true := by
    apply List.any_eq_true.mpr
    refine ⟨(fun t => if t.userIdx == userIdx && decide (t.expires ≤ now) then
      { t with resendCount := 0 } else t) row, List.mem_map_of_mem _ hmem, ?_⟩
    show ((if row.userIdx == userIdx && decide (row.expires ≤ now) then
      ({ row with resendCount := 0 } : TokenRow) else row).userIdx == userIdx) = true
    split <;> simp [hrow]
  have htok : (Users.generatePasswordChangeToken now newToken st userIdx).2.tokens
      = (Users.resetResendCountIfExpired now st userIdx).tokens.map (fun t =>
          if t.userIdx == userIdx then
            (⟨t.userIdx, newToken, t.resendCount + 1, now + Users.oneDay⟩ : TokenRow)
          else t) := by
    unfold Users.generatePasswordChangeToken
    simp only [hany, if_true]
  constructor
  · intro hlive t ht hidx
    rw [htok] at ht
    simp only [List.mem_map] at ht
    obtain ⟨v, hv, rfl⟩ := ht
    unfold Users.resetResendCountIfExpired at hv
    simp only [List.mem_map] at hv
    obtain ⟨w, hw, rfl⟩ := hv
    by_cases hwid : w.userIdx = userIdx
    · have hwrow : w = row := huniq w hw hwid
      subst hwrow
      have hexp : decide (w.expires ≤ now) = false := by
        simp only [decide_eq_false_iff_not]
        omega
      simp [hexp, hwid]
    · have h1 : (w.userIdx == userIdx && decide (w.expires ≤ now)) = false := by
        simp [hwid]
      simp only [h1, Bool.false_eq_true, if_false] at hidx ⊢
      have h2 : (w.userIdx == userIdx) = false := by simp [hwid]
      simp only [h2, Bool.false_eq_true, if_false] at hidx ⊢
      exact absurd hidx hwid
  · intro hexpired t ht hidx
    rw [htok] at ht
    simp only [List.mem_map] at ht
    obtain ⟨v, hv, rfl⟩ := ht
    unfold Users.resetResendCountIfExpired at hv
    simp only [List.mem_map] at hv
    obtain ⟨w, hw, rfl⟩ := hv
    by_cases hwid : w.userIdx = userIdx
    · have hwrow : w = row := huniq w hw hwid
      subst hwrow
      have hexp : decide (w.expires ≤ now) = true := by
        simp only [decide_eq_true_eq]
        omega
      simp [hexp, hwid]
    · have h1 : (w.userIdx == userIdx && decide (w.expires ≤ now)) = false := by
        simp [hwid]
      simp only [h1, Bool.false_eq_true, if_false] at hidx ⊢
      have h2 : (w.userIdx == userIdx) = false := by simp [hwid]
      simp only [h2, Bool.false_eq_true, if_false] at hidx ⊢
      exact absurd hidx hwid

/-- Witness for C2 amended: user 7's token (resendCount 5) reissued at time 10,
before its expiry 100, carries resendCount 6; reissued at time 100 it carries
resendCount 1. -/
theorem generatePasswordChangeToken_resend_witness :
    (∀ t ∈ (Users.generatePasswordChangeToken 10 "t1"
        ⟨[], [⟨7, "t0", 5, 100⟩], none⟩ 7).2.tokens,
      t.userIdx = 7 → t.resendCount = 6)
    ∧ (∀ t ∈ (Users.generatePasswordChangeToken 100 "t1"
        ⟨[], [⟨7, "t0", 5, 100⟩], none⟩ 7).2.tokens,
      t.userIdx = 7 → t.resendCount = 1) := by
  constructor
  · exact (generatePasswordChangeToken_resend 10 "t1" ⟨[], [⟨7, "t0", 5, 100⟩], none⟩ 7
      ⟨7, "t0", 5, 100⟩ (by simp) rfl
      (by intro t ht _; simpa using ht)).1 (by decide)
  · exact (generatePasswordChangeToken_resend 100 "t1" ⟨[], [⟨7, "t0", 5, 100⟩], none⟩ 7
      ⟨7, "t0", 5, 100⟩ (by simp) rfl
      (by intro t ht _; simpa using ht)).2 (by decide)

/-- C7: every successful `create`, `delete` and `changeShell` leaves the cache
unpopulated, while a successful `changePassword` leaves the cache exactly as it
was; and the invalidation touches nothing else — the token table is unchanged
by all four, and `changePassword` changes only the target row's digest. -/
theorem cache_invalidation_frame (crypto : Crypto) (tr : Transaction) (cfg : Config)
    (st : DBState) (newIdx userIdx : Nat) (username name sh : String)
    (pw : List Nat) (lang : Language') :
    (∀ i st', Users.create crypto tr cfg st newIdx username pw name sh lang
        = .ok (i, st') → st'.cache = none ∧ st'.tokens = st.tokens)
    ∧ (∀ i st', Users.delete st userIdx = .ok (i, st') →
        st'.cache = none ∧ st'.tokens = st.tokens)
    ∧ (∀ i st', Users.changeShell st userIdx sh = .ok (i, st') →
        st'.cache = none ∧ st'.tokens = st.tokens)
    ∧ (∀ i st', Users.changePassword crypto st userIdx pw = .ok (i, st') →
        st'.cache = st.cache ∧ st'.tokens = st.tokens
          ∧ st'.users = st.users.map (fun u =>
              if u.idx == userIdx then
                { u with passwordDigest := Digest.current (crypto.argon2Hash pw) }
              else u)) := by
  refine ⟨?_, ?_, ?_, ?_⟩
  · intro i st' h
    unfold Users.create at h
    cases hgen : Users.generateUid tr (st.users.map (·.uid)) cfg.minUid with
    | error e => rw [hgen] at h; simp at h
    | ok uid =>
        rw [hgen] at h
        have h2 := Except.ok.inj h
        cases h2
        exact ⟨rfl, rfl⟩
  · intro i st' h
    unfold Users.delete at h
    cases hc : st.users.any (fun u => u.idx == userIdx) with
    | false => rw [hc] at h; simp at h
    | true =>
        rw [hc] at h
        have h2 := Except.ok.inj h
        cases h2
        exact ⟨rfl, rfl⟩
  · intro i st' h
    unfold Users.changeShell at h
    cases hc : st.users.any (fun u => u.idx == userIdx) with
    | false => rw [hc] at h; simp at h
    | true =>
        rw [hc] at h
        have h2 := Except.ok.inj h
        cases h2
        exact ⟨rfl, rfl⟩
  · intro i st' h
    unfold Users.changePassword at h
    cases hc : st.users.any (fun u => u.idx == userIdx) with
    | false => rw [hc] at h; simp at h
    | true =>
        rw [hc] at h
        have h2 := Except.ok.inj h
        cases h2
        exact ⟨rfl, rfl, rfl⟩

/-- Witness for C7 on a one-account store with a populated cache: create,
delete and shell change clear it, password change preserves it; tokens survive
all four. -/
theorem cache_invalidation_frame_witness :
    (Users.create crypto0 ⟨["users"]⟩ ⟨"users", "dc=s", "/home", 500, 10000⟩
        ⟨[aliceRow], [⟨7, "t0", 5, 100⟩], some []⟩ 2 "bob" [1] "Bob" "/bin/sh" .en).map
        (fun r => (r.2.cache, r.2.tokens))
      = .ok (none, [⟨7, "t0", 5, 100⟩])
    ∧ (Users.delete ⟨[aliceRow], [⟨7, "t0", 5, 100⟩], some []⟩ 1).map
        (fun r => (r.2.cache, r.2.tokens)) = .ok (none, [⟨7, "t0", 5, 100⟩])
    ∧ (Users.changeShell ⟨[aliceRow], [⟨7, "t0", 5, 100⟩], some []⟩ 1 "/bin/sh").map
        (fun r => (r.2.cache, r.2.tokens)) = .ok (none, [⟨7, "t0", 5, 100⟩])
    ∧ (Users.changePassword crypto0 ⟨[aliceRow], [⟨7, "t0", 5, 100⟩], some []⟩ 1 [9]).map
        (fun r => (r.2.cache, r.2.tokens)) = .ok (some [], [⟨7, "t0", 5, 100⟩]) := by
  have h := cache_invalidation_frame crypto0 ⟨["users"]⟩ ⟨"users", "dc=s", "/home", 500, 10000⟩
    ⟨[aliceRow], [⟨7, "t0", 5, 100⟩], some []⟩ 2 1 "bob" "Bob" "/bin/sh" [9] .en
  refine ⟨?_, ?_, ?_, ?_⟩
  · obtain ⟨hc, ht⟩ := h.1 2 _ rfl
    rw [show Users.create crypto0 ⟨["users"]⟩ ⟨"users", "dc=s", "/home", 500, 10000⟩
      ⟨[aliceRow], [⟨7, "t0", 5, 100⟩], some []⟩ 2 "bob" [1] "Bob" "/bin/sh" .en
      = .ok (2, ⟨[aliceRow, ⟨2, some "bob", .current "argon", "Bob", 10001, some "/bin/sh",
          .en, false, none⟩], [⟨7, "t0", 5, 100⟩], none⟩) from rfl]
    rfl
  · obtain ⟨hc, ht⟩ := h.2.1 1 _ rfl
    rw [show Users.delete ⟨[aliceRow], [⟨7, "t0", 5, 100⟩], some []⟩ 1
      = .ok (1, ⟨[], [⟨7, "t0", 5, 100⟩], none⟩) from rfl]
    rfl
  · rw [show Users.changeShell ⟨[aliceRow], [⟨7, "t0", 5, 100⟩], some []⟩ 1 "/bin/sh"
      = .ok (1, ⟨[{ aliceRow with shell := some "/bin/sh" }], [⟨7, "t0", 5, 100⟩], none⟩)
      from rfl]
    rfl
  · rw [show Users.changePassword crypto0 ⟨[aliceRow], [⟨7, "t0", 5, 100⟩], some []⟩ 1 [9]
      = .ok (1, ⟨[{ aliceRow with passwordDigest := .current "argon" }],
          [⟨7, "t0", 5, 100⟩], some []⟩) from rfl]
    rfl

lemma find?_eq_of_unique {α : Type} (p : α → Bool) (a : α) :
    ∀ (l : List α), a ∈ l → p a = true → (∀ b ∈ l, p b = true → b = a) →
      l.find? p = some a := by
  intro l
  induction l with
  | nil => intro ha _ _; cases ha
  | cons x xs ih =>
      intro ha hpa huniq
      cases hx : p x with
      | true =>
          rw [List.find?_cons_of_pos _ hx]
          exact congrArg some (huniq x (List.mem_cons_self x xs) hx)
      | false =>
          rw [List.find?_cons_of_neg _ (by simp [hx])]
          rcases List.mem_cons.mp ha with h | h
          · subst h; rw [hpa] at hx; cases hx
          · exact ih h hpa (fun b hb hpb => huniq b (List.mem_cons_of_mem _ hb) hpb)

/-- C10: `getUserIdxByEmailAddress` lower-cases the local part on both sides
but compares the domain exactly: with `e` the unique stored row for its
lower-cased local part and domain, a query differing from `e`'s address only in
the case of the local part returns `e`'s owner, while a query whose domain
differs from every stored row's — in particular one differing from `e`'s domain
only in case — fails with `NoSuchEntryError`. -/
theorem getUserIdxByEmailAddress_case_rules (emails : List EmailRow) (e : EmailRow)
    (ql : String) (he : e ∈ emails)
    (hl : lowerString ql = lowerString e.addressLocal)
    (huniq : ∀ x ∈ emails, lowerString x.addressLocal = lowerString e.addressLocal →
        x.addressDomain = e.addressDomain → x = e) :
    Users.getUserIdxByEmailAddress emails ql e.addressDomain = .ok e.ownerIdx
    ∧ ∀ qd, lowerString qd = lowerString e.addressDomain → qd ≠ e.addressDomain →
        (∀ x ∈ emails, x.addressDomain ≠ qd) →
        Users.getUserIdxByEmailAddress emails ql qd = .error .noSuchEntry := by
  constructor
  · unfold Users.getUserIdxByEmailAddress
    have hun : ∀ b ∈ emails, (lowerString b.addressLocal == lowerString ql
        && b.addressDomain == e.addressDomain) = true → b = e := by
      intro b hb hpb
      simp only [Bool.and_eq_true, beq_iff_eq] at hpb
      exact huniq b hb (by rw [hpb.1, hl]) hpb.2
    rw [find?_eq_of_unique _ e emails he (by simp [hl]) hun]
  · intro qd _ _ habs
    unfold Users.getUserIdxByEmailAddress
    have hfind : emails.find? (fun x =>
        lowerString x.addressLocal == lowerString ql && x.addressDomain == qd) = none := by
      rw [List.find?_eq_none]
      intro x hx
      simp only [Bool.and_eq_true, beq_iff_eq, not_and]
      intro _
      exact habs x hx
    rw [hfind]

/-- Witness for C10: address "Foo"@"Example.COM" owned by user 1; querying
"fOO"@"Example.COM" finds the owner, querying "fOO"@"example.com" does not. -/
theorem getUserIdxByEmailAddress_case_rules_witness :
    Users.getUserIdxByEmailAddress [⟨1, "Foo", "Example.COM"⟩] "fOO" "Example.COM"
      = .ok 1
    ∧ Users.getUserIdxByEmailAddress [⟨1, "Foo", "Example.COM"⟩] "fOO" "example.com"
      = .error .noSuchEntry := by
  have h := getUserIdxByEmailAddress_case_rules [⟨1, "Foo", "Example.COM"⟩]
    ⟨1, "Foo", "Example.COM"⟩ "fOO" (by simp) (by decide)
    (by intro x hx _ _; simpa using hx)
  exact ⟨h.1, h.2 "example.com" (by decide) (by decide) (by decide)⟩
